import Mathlib

/-!
Wave-mesh update engine of the glmark2 "buffer" scene.

A shallow embedding of the `WaveMesh` class and the `wave_grid_conf` callback
from `src/scene-buffer.cpp`, together with proofs about the per-frame
dirty-range detection, the range-to-vertex-index conversion, the z-only
vertex rewriting, and the closed-form wave displacement function.

Machine `double` values are modelled as real numbers; `size_t` loop and index
arithmetic is modelled with `ℕ` (with comments where wrap-around could in
principle matter).  The mutable `std::vector` state of the C++ code is passed
explicitly: `update` takes the previous displacement array and vertex store
and returns the new ones together with the list of vertex ranges forwarded to
`Mesh::update_vbo`.
-/

namespace SceneBuffer

/-! Section: Grid topology: `wave_grid_conf` and `Mesh::make_grid` -/

/-- One quad emission of `wave_grid_conf` (src/scene-buffer.cpp:39-68),
generic in the corner payload `β`.  It emits 6 vertices in the order
`t = {ll, ur, ul, ur, ll, lr}`; vertex `i` carries 4 attribute slots: its own
corner `t[i]` and the three corners `t[3*(i/3)]`, `t[3*(i/3)+1]`,
`t[3*(i/3)+2]` of the triangle it belongs to. -/
def quadVerts {β : Type} (ul ll ur lr : β) : List (List β) :=
  let t : List β := [ll, ur, ul, ur, ll, lr]
  (List.range 6).map fun i =>
    [t.getD i ll, t.getD (3 * (i / 3)) ll, t.getD (3 * (i / 3) + 1) ll,
     t.getD (3 * (i / 3) + 2) ll]

/-- Modelled from the spec: `Mesh::make_grid` is code of this repository that
is not under `src/` (only its caller `WaveMesh::create_mesh` is).  Per the
spec it produces `nlength * nwidth * 6` vertices by invoking the per-quad
callback (here `quadVerts`) once per quad, the four corner positions being
computed by linear interpolation; the iteration order must be consistent with
the `v / (6 * nwidth) + v % 2` indexing formula, hence the length axis is the
outer loop.  Generic in the corner payload `β`. -/
def gridVerts {β : Type} (nlength nwidth : ℕ) (corner : ℕ → ℕ → β) :
    List (List β) :=
  (List.range nlength).flatMap fun n =>
    (List.range nwidth).flatMap fun w =>
      quadVerts (corner n (w + 1)) (corner n w) (corner (n + 1) (w + 1))
        (corner (n + 1) w)

/-- Modelled from the spec: the corner positions supplied by
`Mesh::make_grid` — linear interpolation over `[0,length] × [0,width]` at
`z = base_height`, as a flat `[x, y, z]` triple. -/
noncomputable def gridCorner (nlength nwidth : ℕ) (length width z : ℝ)
    (i j : ℕ) : List ℝ :=
  [(i : ℝ) * length / (nlength : ℝ), (j : ℝ) * width / (nwidth : ℝ), z]

/-- Modelled from the spec: `Mesh::make_grid` with the `wave_grid_conf`
callback; each emitted vertex is the flattened 12-float record
(own position, then the three triangle-corner positions). -/
noncomputable def make_grid (nlength nwidth : ℕ) (length width z : ℝ) :
    List (List ℝ) :=
  (gridVerts nlength nwidth (gridCorner nlength nwidth length width z)).map
    List.flatten

/-! Section: The `WaveMesh` parameters (src/scene-buffer.cpp:86-96) -/

/-- Constructor parameters of `WaveMesh` (immutable after construction). -/
structure WaveMesh where
  length : ℝ
  width : ℝ
  nlength : ℕ
  nwidth : ℕ
  wavelength : ℝ
  duty_cycle : ℝ

/-- `wave_k_ = 2 * M_PI / (wavelength * length)`. -/
noncomputable def wave_k (m : WaveMesh) : ℝ :=
  2 * Real.pi / (m.wavelength * m.length)

/-- `wave_period_ = 2.0 * M_PI / wave_k_`. -/
noncomputable def wave_period (m : WaveMesh) : ℝ := 2 * Real.pi / wave_k m

/-- `wave_full_period_ = wave_period_ / duty_cycle`. -/
noncomputable def wave_full_period (m : WaveMesh) : ℝ :=
  wave_period m / m.duty_cycle

/-- `wave_velocity_ = 0.1 * length`. -/
noncomputable def wave_velocity (m : WaveMesh) : ℝ := 0.1 * m.length

/-- `displacement_(nlength + 1)`: the member vector is value-initialized, so
it starts as `nlength + 1` zeros. -/
noncomputable def init_displacement (m : WaveMesh) : List ℝ :=
  List.replicate (m.nlength + 1) 0

/-- `WaveMesh::create_mesh` (src/scene-buffer.cpp:259-281) passes base height
`0.0` to `make_grid`. -/
noncomputable def create_mesh_verts (m : WaveMesh) : List (List ℝ) :=
  make_grid m.nlength m.nwidth m.length m.width 0

/-! Section: The wave function (src/scene-buffer.cpp:200-233) -/

/-- C `trunc` — rounding toward zero, the implicit quotient of `fmod`. -/
noncomputable def ctrunc (q : ℝ) : ℤ := if 0 ≤ q then ⌊q⌋ else ⌈q⌉

/-- C `fmod x y = x - y * trunc (x / y)` (for finite nonzero `y`). -/
noncomputable def cfmod (x y : ℝ) : ℝ := x - y * ctrunc (x / y)

/-- The normalized remainder of `WaveMesh::wave_func`:
`r = fmod(x, wave_full_period_); if (r < 0) r += wave_full_period_;`. -/
noncomputable def wnorm (m : WaveMesh) (x : ℝ) : ℝ :=
  if cfmod x (wave_full_period m) < 0 then
    cfmod x (wave_full_period m) + wave_full_period m
  else cfmod x (wave_full_period m)

/-- `WaveMesh::wave_func`: with `r` the normalized remainder, return `0` if
`r > wave_period_`, else `0.2 * sin(wave_k_ * r)`. -/
noncomputable def wave_func (m : WaveMesh) (x : ℝ) : ℝ :=
  if wnorm m x > wave_period m then 0 else 0.2 * Real.sin (wave_k m * wnorm m x)

/-- `WaveMesh::displacement n elapsed = wave_func (n * length_ / nlength_ -
wave_velocity_ * elapsed)`. -/
noncomputable def displacement (m : WaveMesh) (n : ℕ) (elapsed : ℝ) : ℝ :=
  wave_func m ((n : ℝ) * m.length / (m.nlength : ℝ) - wave_velocity m * elapsed)

/-! Section: The dirty-range detection loop (src/scene-buffer.cpp:110-128) -/

/-- One iteration of the detection loop of `WaveMesh::update`, at length
index `n`: compare the fresh displacement `f n` with the stored value,
extend or open a dirty range accordingly, and store `f n` unconditionally.
The C++ guard `ranges.size() > 0 && ranges.back().second == n - 1` is
rendered by the `getLast?` match together with `r.2 + 1 = n` (for `n = 0`
the `size_t` subtraction wraps around, and both the C++ test and `r.2 + 1 = 0`
are false). -/
noncomputable def detectStep (f : ℕ → ℝ) (st : List (ℕ × ℕ) × List ℝ)
    (n : ℕ) : List (ℕ × ℕ) × List ℝ :=
  let d := f n
  let ranges :=
    if d ≠ st.2.getD n 0 then
      match st.1.getLast? with
      | some r =>
        if r.2 + 1 = n then st.1.dropLast ++ [(r.1, n)]
        else st.1 ++ [(n - 1, n)]
      | none => st.1 ++ [(n - 1, n)]
    else st.1
  (ranges, st.2.set n (f n))

/-- The detection loop run over length indices `0, 1, ..., m - 1`. -/
noncomputable def detectUpTo (f : ℕ → ℝ) (disp : List ℝ) (m : ℕ) :
    List (ℕ × ℕ) × List ℝ :=
  (List.range m).foldl (detectStep f) ([], disp)

/-- The full detection loop `for (size_t n = 0; n <= nlength_; n++)`:
returns the dirty-range list and the updated displacement array. -/
noncomputable def detect (nlength : ℕ) (f : ℕ → ℝ) (disp : List ℝ) :
    List (ℕ × ℕ) × List ℝ :=
  detectUpTo f disp (nlength + 1)

/-- `f n` differs from the stored displacement at `n` — the condition that
marks length index `n` dirty. -/
def Changed (f : ℕ → ℝ) (disp : List ℝ) (n : ℕ) : Prop := f n ≠ disp.getD n 0

noncomputable instance (f : ℕ → ℝ) (disp : List ℝ) (n : ℕ) :
    Decidable (Changed f disp n) :=
  inferInstanceAs (Decidable (f n ≠ disp.getD n 0))

/-! Section: Range conversion and vertex rewriting (src/scene-buffer.cpp:130-156) -/

/-- `WaveMesh::vertex_length_index v = v / (6 * nwidth_) + v % 2`. -/
def vertex_length_index (nwidth v : ℕ) : ℕ := v / (6 * nwidth) + v % 2

/-- `vstart = iter->first * nwidth_ * 6 + iter->first % 2`. -/
def vstart (nwidth : ℕ) (r : ℕ × ℕ) : ℕ := r.1 * nwidth * 6 + r.1 % 2

/-- The source's `vend`: first vertex index not included in the range,
`(iter->second + (iter->second < nlength_)) * nwidth_ * 6`. -/
def vstop (nlength nwidth : ℕ) (r : ℕ × ℕ) : ℕ :=
  (r.2 + if r.2 < nlength then 1 else 0) * nwidth * 6

/-- The body of the vertex-update loop: for vertex `v` with first triangle
vertex `vt = 3 * (v / 3)`, overwrite the z components (flat positions 2, 5,
8, 11) of the 4 attribute slots from the displacement array. -/
def writeVertex (disp : List ℝ) (nwidth : ℕ) (verts : List (List ℝ))
    (v : ℕ) : List (List ℝ) :=
  let vt := 3 * (v / 3)
  let w0 := verts.getD v []
  let w1 := w0.set 2 (disp.getD (vertex_length_index nwidth v) 0)
  let w2 := w1.set 5 (disp.getD (vertex_length_index nwidth vt) 0)
  let w3 := w2.set 8 (disp.getD (vertex_length_index nwidth (vt + 1)) 0)
  let w4 := w3.set 11 (disp.getD (vertex_length_index nwidth (vt + 2)) 0)
  verts.set v w4

/-- Processing of one detected range: rewrite the vertices in
`[vstart, vend)` and replace the pair by the actual vertex range
`(vstart, vend - 1)` appended to the output list. -/
def processRange (nlength nwidth : ℕ) (disp : List ℝ)
    (st : List (List ℝ) × List (ℕ × ℕ)) (r : ℕ × ℕ) :
    List (List ℝ) × List (ℕ × ℕ) :=
  let a := vstart nwidth r
  let b := vstop nlength nwidth r
  let verts := (List.range' a (b - a)).foldl (writeVertex disp nwidth) st.1
  (verts, st.2 ++ [(a, b - 1)])

/-- The observable result of one `WaveMesh::update` call: the vertex ranges
forwarded to `Mesh::update_vbo`, the new displacement array, and the new
vertex store. -/
structure UpdateResult where
  ranges : List (ℕ × ℕ)
  disp : List ℝ
  verts : List (List ℝ)

/-- `WaveMesh::update` for an arbitrary fresh displacement function `f`. -/
noncomputable def update (nlength nwidth : ℕ) (f : ℕ → ℝ) (disp : List ℝ)
    (verts : List (List ℝ)) : UpdateResult :=
  let det := detect nlength f disp
  let res := det.1.foldl (processRange nlength nwidth det.2) (verts, [])
  ⟨res.2, det.2, res.1⟩

/-- `WaveMesh::update m elapsed`, with the fresh displacement values
`displacement m n elapsed` (src/scene-buffer.cpp:106-157). -/
noncomputable def WaveMesh.update (m : WaveMesh) (elapsed : ℝ)
    (disp : List ℝ) (verts : List (List ℝ)) : UpdateResult :=
  SceneBuffer.update m.nlength m.nwidth (fun n => displacement m n elapsed)
    disp verts

/-! Section: Basic lemmas about the detection loop -/

lemma detectStep_snd (f : ℕ → ℝ) (st : List (ℕ × ℕ) × List ℝ) (n : ℕ) :
    (detectStep f st n).2 = st.2.set n (f n) := rfl

lemma detectUpTo_zero (f : ℕ → ℝ) (d : List ℝ) : detectUpTo f d 0 = ([], d) := rfl

lemma detectUpTo_succ (f : ℕ → ℝ) (d : List ℝ) (m : ℕ) :
    detectUpTo f d (m + 1) = detectStep f (detectUpTo f d m) m := by
  unfold detectUpTo
  rw [List.range_succ, List.foldl_append]
  rfl

lemma detectUpTo_disp_length (f : ℕ → ℝ) (d : List ℝ) (m : ℕ) :
    (detectUpTo f d m).2.length = d.length := by
  induction m with
  | zero => rfl
  | succ m ih => rw [detectUpTo_succ, detectStep_snd, List.length_set, ih]

lemma detectUpTo_disp_getD (f : ℕ → ℝ) (d : List ℝ) (m k : ℕ) :
    (detectUpTo f d m).2.getD k 0 =
      if k < m ∧ k < d.length then f k else d.getD k 0 := by
  induction m with
  | zero =>
    rw [detectUpTo_zero]
    simp
  | succ m ih =>
    rw [detectUpTo_succ, detectStep_snd]
    by_cases hk : k = m
    · subst hk
      by_cases hlen : k < d.length
      · rw [List.getD_eq_getElem?_getD,
          List.getElem?_set_self (by rw [detectUpTo_disp_length]; exact hlen)]
        simp [hlen]
      · have h1 : (detectUpTo f d k).2.length ≤ k := by
          rw [detectUpTo_disp_length]; omega
        rw [List.getD_eq_getElem?_getD, List.getElem?_eq_none (by simpa using h1)]
        simp only [Option.getD_none]
        have h3 : ¬(k < k + 1 ∧ k < d.length) := by omega
        rw [if_neg h3]
        rw [List.getD_eq_getElem?_getD, List.getElem?_eq_none (by omega)]
        rfl
    · rw [List.getD_eq_getElem?_getD, List.getElem?_set_ne (fun h => hk h.symm),
        ← List.getD_eq_getElem?_getD, ih]
      have : (k < m ∧ k < d.length) ↔ (k < m + 1 ∧ k < d.length) := by omega
      rw [if_congr this rfl rfl]

/-- At step `m` the comparison reads the original stored value: indices
`≥ m` have not been overwritten yet. -/
lemma detectUpTo_disp_getD_self (f : ℕ → ℝ) (d : List ℝ) (m : ℕ) :
    (detectUpTo f d m).2.getD m 0 = d.getD m 0 := by
  rw [detectUpTo_disp_getD]
  simp

/-- The range list after one more step, phrased through `Changed`. -/
lemma detectUpTo_fst_succ (f : ℕ → ℝ) (d : List ℝ) (m : ℕ) :
    (detectUpTo f d (m + 1)).1 =
      if Changed f d m then
        match (detectUpTo f d m).1.getLast? with
        | some r =>
          if r.2 + 1 = m then (detectUpTo f d m).1.dropLast ++ [(r.1, m)]
          else (detectUpTo f d m).1 ++ [(m - 1, m)]
        | none => (detectUpTo f d m).1 ++ [(m - 1, m)]
      else (detectUpTo f d m).1 := by
  rw [detectUpTo_succ]
  show (if f m ≠ (detectUpTo f d m).2.getD m 0 then _ else _) = _
  rw [detectUpTo_disp_getD_self]
  rfl

/-! Section: The structural invariant of the detected range list -/

/-- Invariant of the dirty-range list after scanning length indices
`0, ..., m - 1`:

1. consecutive ranges are disjoint and increasing (`a.2 + 1 ≤ b.1`);
2. every range is well formed and ends below `m`;
3. the only possible singleton range is `(0, 0)`;
4. exactness: every index covered by a range is a changed index, except
   possibly the range's start, which is then the `n - 1` backstop of a
   changed index `n = start + 1`;
5. coverage: every changed index scanned so far lies in some range. -/
def RangesInv (f : ℕ → ℝ) (d : List ℝ) (m : ℕ) (rs : List (ℕ × ℕ)) : Prop :=
  List.Chain' (fun a b => a.2 + 1 ≤ b.1) rs ∧
  (∀ r ∈ rs, r.1 ≤ r.2 ∧ r.2 < m) ∧
  (∀ r ∈ rs, r.1 = r.2 → r.1 = 0) ∧
  (∀ r ∈ rs, ∀ k, r.1 ≤ k → k ≤ r.2 →
    Changed f d k ∨ (k = r.1 ∧ Changed f d (k + 1))) ∧
  (∀ k, k < m → Changed f d k → ∃ r ∈ rs, r.1 ≤ k ∧ k ≤ r.2)

theorem detectUpTo_inv (f : ℕ → ℝ) (d : List ℝ) (m : ℕ) :
    RangesInv f d m (detectUpTo f d m).1 := by
  induction m with
  | zero =>
    refine ⟨List.chain'_nil, ?_, ?_, ?_, ?_⟩ <;> simp [detectUpTo_zero]
  | succ m ih =>
    obtain ⟨ihc, ihb, ihs, ihe, ihv⟩ := ih
    rw [detectUpTo_fst_succ]
    set rs := (detectUpTo f d m).1 with hrs
    by_cases hc : Changed f d m
    · rw [if_pos hc]
      cases hlast : rs.getLast? with
      | none =>
        have hnil : rs = [] := List.getLast?_eq_none_iff.mp hlast
        dsimp only
        rw [hnil]
        refine ⟨?_, ?_, ?_, ?_, ?_⟩
        · simp
        · intro r hr
          simp only [List.nil_append, List.mem_singleton] at hr
          subst hr
          constructor <;> omega
        · intro r hr
          simp only [List.nil_append, List.mem_singleton] at hr
          subst hr
          intro h
          omega
        · intro r hr k h1 h2
          simp only [List.nil_append, List.mem_singleton] at hr
          subst hr
          simp only at h1 h2
          by_cases hk : k = m
          · exact Or.inl (hk ▸ hc)
          · right
            have hm1 : k = m - 1 := by omega
            have hm : m - 1 + 1 = m := by omega
            exact ⟨hm1, by rw [hm1, hm]; exact hc⟩
        · intro k hk hck
          by_cases hkm : k = m
          · exact ⟨(m - 1, m), by simp, by simp; omega⟩
          · exfalso
            obtain ⟨r, hr, -⟩ := ihv k (by omega) hck
            rw [hnil] at hr
            simp at hr
      | some r =>
        have hne : rs ≠ [] := by
          intro h
          rw [h] at hlast
          simp at hlast
        have hrlast : rs.getLast hne = r := by
          rw [List.getLast?_eq_getLast rs hne] at hlast
          exact Option.some_injective _ hlast
        have hdecomp : rs.dropLast ++ [r] = rs := by
          rw [← hrlast]
          exact List.dropLast_append_getLast hne
        have hrmem : r ∈ rs := by
          rw [← hrlast]
          exact List.getLast_mem hne
        have hrb := ihb r hrmem
        dsimp only
        by_cases hm : r.2 + 1 = m
        · rw [if_pos hm]
          have hchain2 : List.Chain' (fun a b => a.2 + 1 ≤ b.1) rs.dropLast ∧
              ∀ x ∈ rs.dropLast.getLast?, x.2 + 1 ≤ r.1 := by
            have := hdecomp ▸ ihc
            rw [List.chain'_append] at this
            exact ⟨this.1, fun x hx => this.2.2 x hx r rfl⟩
          have hmemdrop : ∀ x ∈ rs.dropLast, x ∈ rs := fun x hx =>
            (List.dropLast_sublist rs).mem hx
          refine ⟨?_, ?_, ?_, ?_, ?_⟩
          · rw [List.chain'_append]
            refine ⟨hchain2.1, List.chain'_singleton _, ?_⟩
            intro x hx y hy
            simp only [List.head?_cons, Option.mem_def, Option.some.injEq] at hy
            subst hy
            exact hchain2.2 x hx
          · intro x hx
            rcases List.mem_append.mp hx with h | h
            · have := ihb x (hmemdrop x h)
              omega
            · simp only [List.mem_singleton] at h
              subst h
              simp only
              omega
          · intro x hx
            rcases List.mem_append.mp hx with h | h
            · exact ihs x (hmemdrop x h)
            · simp only [List.mem_singleton] at h
              subst h
              simp only
              omega
          · intro x hx k h1 h2
            rcases List.mem_append.mp hx with h | h
            · exact ihe x (hmemdrop x h) k h1 h2
            · simp only [List.mem_singleton] at h
              subst h
              simp only at h1 h2 ⊢
              by_cases hkm : k = m
              · exact Or.inl (hkm ▸ hc)
              · have hk2 : k ≤ r.2 := by omega
                exact ihe r hrmem k h1 hk2
          · intro k hk hck
            by_cases hkm : k = m
            · refine ⟨(r.1, m), by simp, by simp; omega⟩
            · obtain ⟨x, hx, hx1, hx2⟩ := ihv k (by omega) hck
              have hx9 : x ∈ rs.dropLast ++ [r] := by rw [hdecomp]; exact hx
              rcases List.mem_append.mp hx9 with h | h
              · exact ⟨x, List.mem_append.mpr (Or.inl h), hx1, hx2⟩
              · simp only [List.mem_singleton] at h
                subst h
                exact ⟨(x.1, m), List.mem_append.mpr (Or.inr (by simp)), hx1, by omega⟩
        · rw [if_neg hm]
          have hm2 : r.2 + 1 ≤ m - 1 := by omega
          refine ⟨?_, ?_, ?_, ?_, ?_⟩
          · rw [List.chain'_append]
            refine ⟨ihc, List.chain'_singleton _, ?_⟩
            intro x hx y hy
            simp only [List.head?_cons, Option.mem_def, Option.some.injEq] at hy
            subst hy
            rw [Option.mem_def, hlast, Option.some.injEq] at hx
            subst hx
            simpa using hm2
          · intro x hx
            rcases List.mem_append.mp hx with h | h
            · have := ihb x h
              omega
            · simp only [List.mem_singleton] at h
              subst h
              simp only
              omega
          · intro x hx
            rcases List.mem_append.mp hx with h | h
            · exact ihs x h
            · simp only [List.mem_singleton] at h
              subst h
              intro h2
              simp only at h2 ⊢
              omega
          · intro x hx k h1 h2
            rcases List.mem_append.mp hx with h | h
            · exact ihe x h k h1 h2
            · simp only [List.mem_singleton] at h
              subst h
              simp only at h1 h2 ⊢
              by_cases hkm : k = m
              · exact Or.inl (hkm ▸ hc)
              · right
                have hk1 : k = m - 1 := by omega
                have hmm : m - 1 + 1 = m := by omega
                exact ⟨hk1, by rw [hk1, hmm]; exact hc⟩
          · intro k hk hck
            by_cases hkm : k = m
            · refine ⟨(m - 1, m), List.mem_append.mpr (Or.inr (by simp)), by simp; omega⟩
            · obtain ⟨x, hx, hx1, hx2⟩ := ihv k (by omega) hck
              exact ⟨x, List.mem_append.mpr (Or.inl hx), hx1, hx2⟩
    · rw [if_neg hc]
      refine ⟨ihc, ?_, ihs, ihe, ?_⟩
      · intro r hr
        have := ihb r hr
        omega
      · intro k hk hck
        by_cases hkm : k = m
        · exact absurd (hkm ▸ hck) hc
        · exact ihv k (by omega) hck

/-- The invariant for the full `detect` pass: range bounds end at `nlength`. -/
theorem detect_inv (nlength : ℕ) (f : ℕ → ℝ) (d : List ℝ) :
    RangesInv f d (nlength + 1) (detect nlength f d).1 :=
  detectUpTo_inv f d (nlength + 1)

/-! Section: The C fmod normalization versus the mathematical mod -/

/-- The canonical representative of `x` modulo `p`: `x - p * ⌊x / p⌋`,
which lies in `[0, p)` for `p > 0`.  This is the "`x mod p` normalized to
`[0, p)`" of the spec. -/
noncomputable def spec_mod (x p : ℝ) : ℝ := x - p * ⌊x / p⌋

lemma spec_mod_eq_fract (x p : ℝ) (hp : p ≠ 0) :
    spec_mod x p = p * Int.fract (x / p) := by
  rw [spec_mod, Int.fract, mul_sub, mul_div_cancel₀ x hp]

lemma spec_mod_nonneg (x p : ℝ) (hp : 0 < p) : 0 ≤ spec_mod x p := by
  rw [spec_mod_eq_fract x p (ne_of_gt hp)]
  exact mul_nonneg hp.le (Int.fract_nonneg _)

lemma spec_mod_lt (x p : ℝ) (hp : 0 < p) : spec_mod x p < p := by
  rw [spec_mod_eq_fract x p (ne_of_gt hp)]
  nlinarith [Int.fract_lt_one (x / p)]

/-- The C `fmod`-based normalization of `wave_func` computes exactly the
mathematical mod whenever the modulus is positive. -/
lemma cfmod_normalize (x p : ℝ) (hp : 0 < p) :
    (if cfmod x p < 0 then cfmod x p + p else cfmod x p) = spec_mod x p := by
  have hp0 : p ≠ 0 := ne_of_gt hp
  rcases le_or_lt 0 (x / p) with h0 | h0
  · have ht : ctrunc (x / p) = ⌊x / p⌋ := if_pos h0
    have hcf : cfmod x p = spec_mod x p := by rw [cfmod, ht, spec_mod]
    rw [hcf, if_neg (not_lt.mpr (spec_mod_nonneg x p hp))]
  · have ht : ctrunc (x / p) = ⌈x / p⌉ := if_neg (not_le.mpr h0)
    by_cases hce : ⌈x / p⌉ = ⌊x / p⌋
    · have hcf : cfmod x p = spec_mod x p := by rw [cfmod, ht, hce, spec_mod]
      rw [hcf, if_neg (not_lt.mpr (spec_mod_nonneg x p hp))]
    · have hce1 : ⌈x / p⌉ = ⌊x / p⌋ + 1 := by
        have h1 := Int.ceil_le_floor_add_one (x / p)
        have h2 := Int.floor_le_ceil (x / p)
        omega
      have hcf : cfmod x p = spec_mod x p - p := by
        rw [cfmod, ht, hce1, spec_mod]
        push_cast
        ring
      have hneg : cfmod x p < 0 := by
        have := spec_mod_lt x p hp
        rw [hcf]
        linarith
      rw [if_pos hneg, hcf]
      ring

lemma wnorm_eq (m : WaveMesh) (x : ℝ) (hp : 0 < wave_full_period m) :
    wnorm m x = spec_mod x (wave_full_period m) :=
  cfmod_normalize x (wave_full_period m) hp

/-! Section: The spec-side displacement (for the refinement claim) -/

/-- The spec's `wave_func`, with `r = x mod wave_full_period` normalized to
`[0, wave_full_period)` written directly as `spec_mod`. -/
noncomputable def spec_wave_func (m : WaveMesh) (x : ℝ) : ℝ :=
  if spec_mod x (wave_full_period m) > wave_period m then 0
  else 0.2 * Real.sin (wave_k m * spec_mod x (wave_full_period m))

/-- The spec's `displacement(n, elapsed)`:
`wave_func (n * length / nlength - wave_velocity * elapsed)`. -/
noncomputable def spec_displacement (m : WaveMesh) (n : ℕ) (t : ℝ) : ℝ :=
  spec_wave_func m ((n : ℝ) * m.length / (m.nlength : ℝ) - wave_velocity m * t)

lemma wave_func_eq_spec (m : WaveMesh) (x : ℝ) (hp : 0 < wave_full_period m) :
    wave_func m x = spec_wave_func m x := by
  rw [wave_func, spec_wave_func, wnorm_eq m x hp]

/-! Section: The end-to-end scenario parameters -/

/-- The spec's end-to-end scenario: `nlength = 4`, `nwidth = 1`,
`length = 4.0`, `width = 1.0`, `wavelength_fraction = 1.0`,
`duty_cycle = 1.0`. -/
noncomputable def scenario : WaveMesh :=
  { length := 4, width := 1, nlength := 4, nwidth := 1, wavelength := 1,
    duty_cycle := 1 }

lemma scenario_wave_k : wave_k scenario = Real.pi / 2 := by
  show 2 * Real.pi / (1 * 4) = Real.pi / 2
  ring

lemma scenario_period : wave_period scenario = 4 := by
  show 2 * Real.pi / wave_k scenario = 4
  rw [scenario_wave_k]
  field_simp [Real.pi_ne_zero]
  ring

lemma scenario_full : wave_full_period scenario = 4 := by
  show wave_period scenario / 1 = 4
  rw [scenario_period]
  norm_num

lemma scenario_velocity : wave_velocity scenario = 0.4 := by
  show (0.1 : ℝ) * 4 = 0.4
  norm_num

/-- Evaluation of the scenario's wave function at `x = 4k + r` with
`0 ≤ r < 4`. -/
lemma scenario_wave_func_eval (x r : ℝ) (k : ℤ) (hx : x = 4 * k + r)
    (h0 : 0 ≤ r) (h4 : r < 4) :
    wave_func scenario x = 0.2 * Real.sin (Real.pi / 2 * r) := by
  have hfp : (0:ℝ) < wave_full_period scenario := by
    rw [scenario_full]; norm_num
  have hnorm : wnorm scenario x = r := by
    rw [wnorm_eq scenario x hfp, scenario_full, spec_mod, hx,
      show (4 * (k:ℝ) + r) / 4 = (k:ℝ) + r / 4 by ring,
      Int.floor_int_add,
      show ⌊r / 4⌋ = 0 from
        Int.floor_eq_zero_iff.mpr ⟨by positivity, by linarith⟩]
    push_cast
    ring
  rw [wave_func, hnorm, scenario_period, scenario_wave_k,
    if_neg (by linarith)]

lemma scenario_displacement (n : ℕ) (t : ℝ) :
    displacement scenario n t = wave_func scenario ((n : ℝ) - 0.4 * t) := by
  have hx : (n : ℝ) * scenario.length / (scenario.nlength : ℝ) -
      wave_velocity scenario * t = (n : ℝ) - 0.4 * t := by
    rw [scenario_velocity]
    show (n : ℝ) * 4 / ((4:ℕ) : ℝ) - 0.4 * t = (n : ℝ) - 0.4 * t
    norm_num
  rw [displacement, hx]

lemma scenario_sin0 : 0.2 * Real.sin (Real.pi / 2 * 0) = 0 := by
  rw [mul_zero, Real.sin_zero, mul_zero]

lemma scenario_sin1 : 0.2 * Real.sin (Real.pi / 2 * 1) = 0.2 := by
  rw [mul_one, Real.sin_pi_div_two, mul_one]

lemma scenario_sin2 : 0.2 * Real.sin (Real.pi / 2 * 2) = 0 := by
  rw [show Real.pi / 2 * 2 = Real.pi by ring, Real.sin_pi, mul_zero]

lemma scenario_sin3 : 0.2 * Real.sin (Real.pi / 2 * 3) = -0.2 := by
  rw [show Real.pi / 2 * 3 = Real.pi + Real.pi / 2 by ring, Real.sin_add,
    Real.sin_pi, Real.cos_pi, Real.sin_pi_div_two, Real.cos_pi_div_two]
  norm_num

lemma scenario_d00 : displacement scenario 0 0 = 0 := by
  rw [scenario_displacement,
    scenario_wave_func_eval _ 0 0 (by push_cast; ring) (le_refl 0) (by norm_num),
    scenario_sin0]

lemma scenario_d10 : displacement scenario 1 0 = 0.2 := by
  rw [scenario_displacement,
    scenario_wave_func_eval _ 1 0 (by push_cast; ring) (by norm_num) (by norm_num),
    scenario_sin1]

lemma scenario_d20 : displacement scenario 2 0 = 0 := by
  rw [scenario_displacement,
    scenario_wave_func_eval _ 2 0 (by push_cast; ring) (by norm_num) (by norm_num),
    scenario_sin2]

lemma scenario_d30 : displacement scenario 3 0 = -0.2 := by
  rw [scenario_displacement,
    scenario_wave_func_eval _ 3 0 (by push_cast; ring) (by norm_num) (by norm_num),
    scenario_sin3]

lemma scenario_d40 : displacement scenario 4 0 = 0 := by
  rw [scenario_displacement,
    scenario_wave_func_eval _ 0 1 (by push_cast; ring) (le_refl 0) (by norm_num),
    scenario_sin0]

lemma scenario_d025 : displacement scenario 0 2.5 = -0.2 := by
  rw [scenario_displacement,
    scenario_wave_func_eval _ 3 (-1) (by push_cast; ring) (by norm_num) (by norm_num),
    scenario_sin3]

lemma scenario_d125 : displacement scenario 1 2.5 = 0 := by
  rw [scenario_displacement,
    scenario_wave_func_eval _ 0 0 (by push_cast; ring) (le_refl 0) (by norm_num),
    scenario_sin0]

lemma scenario_d225 : displacement scenario 2 2.5 = 0.2 := by
  rw [scenario_displacement,
    scenario_wave_func_eval _ 1 0 (by push_cast; ring) (by norm_num) (by norm_num),
    scenario_sin1]

lemma scenario_d325 : displacement scenario 3 2.5 = 0 := by
  rw [scenario_displacement,
    scenario_wave_func_eval _ 2 0 (by push_cast; ring) (by norm_num) (by norm_num),
    scenario_sin2]

lemma scenario_d425 : displacement scenario 4 2.5 = -0.2 := by
  rw [scenario_displacement,
    scenario_wave_func_eval _ 3 0 (by push_cast; ring) (by norm_num) (by norm_num),
    scenario_sin3]

/-! Section: Lemmas about the conversion and vertex-rewrite loop -/

lemma processRange_eq (nl nw : ℕ) (d : List ℝ) (st : List (List ℝ) × List (ℕ × ℕ))
    (r : ℕ × ℕ) :
    processRange nl nw d st r =
      ((List.range' (vstart nw r) (vstop nl nw r - vstart nw r)).foldl
          (writeVertex d nw) st.1,
        st.2 ++ [(vstart nw r, vstop nl nw r - 1)]) := rfl

lemma foldl_processRange_out (nl nw : ℕ) (d : List ℝ) :
    ∀ (rs : List (ℕ × ℕ)) (vs : List (List ℝ)) (out : List (ℕ × ℕ)),
      (rs.foldl (processRange nl nw d) (vs, out)).2 =
        out ++ rs.map (fun r => (vstart nw r, vstop nl nw r - 1)) := by
  intro rs
  induction rs with
  | nil => intro vs out; simp
  | cons a t ih =>
    intro vs out
    rw [List.foldl_cons, processRange_eq, ih]
    simp

/-- The list of vertex ranges forwarded to `Mesh::update_vbo` is the
per-range conversion of the detected dirty ranges. -/
lemma update_ranges_eq (nl nw : ℕ) (f : ℕ → ℝ) (d : List ℝ)
    (vs : List (List ℝ)) :
    (update nl nw f d vs).ranges =
      (detect nl f d).1.map (fun r => (vstart nw r, vstop nl nw r - 1)) := by
  show ((detect nl f d).1.foldl (processRange nl nw (detect nl f d).2) (vs, [])).2 = _
  rw [foldl_processRange_out]
  simp

lemma update_disp_eq (nl nw : ℕ) (f : ℕ → ℝ) (d : List ℝ) (vs : List (List ℝ)) :
    (update nl nw f d vs).disp = (detect nl f d).2 := rfl

lemma update_verts_eq (nl nw : ℕ) (f : ℕ → ℝ) (d : List ℝ) (vs : List (List ℝ)) :
    (update nl nw f d vs).verts =
      ((detect nl f d).1.foldl (processRange nl nw (detect nl f d).2) (vs, [])).1 :=
  rfl

/-- A detection pass in which no index is dirty produces no ranges. -/
lemma detectUpTo_fst_nil (f : ℕ → ℝ) (d : List ℝ) (m : ℕ)
    (h : ∀ n, n < m → ¬Changed f d n) : (detectUpTo f d m).1 = [] := by
  induction m with
  | zero => rfl
  | succ m ih =>
    rw [detectUpTo_fst_succ, if_neg (h m (by omega)),
      ih (fun n hn => h n (by omega))]

/-! Section: Preservation lemmas for the vertex store -/

lemma getD_set_of_ne (l : List ℝ) (i j : ℕ) (a x : ℝ) (h : i ≠ j) :
    (l.set i a).getD j x = l.getD j x := by
  rw [List.getD_eq_getElem?_getD, List.getElem?_set_ne h,
    ← List.getD_eq_getElem?_getD]

/-- `writeVertex` leaves every vertex other than `v` untouched. -/
lemma writeVertex_getD_of_ne (d : List ℝ) (nw : ℕ) (vs : List (List ℝ))
    (v v0 : ℕ) (h : v0 ≠ v) :
    (writeVertex d nw vs v).getD v0 [] = vs.getD v0 [] := by
  unfold writeVertex
  rw [List.getD_eq_getElem?_getD, List.getElem?_set_ne (fun he => h he.symm),
    ← List.getD_eq_getElem?_getD]

/-- `writeVertex` only touches the flat positions 2, 5, 8, 11 (the four z
components) of the vertex record. -/
lemma writeVertex_getD_getD (d : List ℝ) (nw : ℕ) (vs : List (List ℝ))
    (v v0 j : ℕ) (x : ℝ) (hj2 : j ≠ 2) (hj5 : j ≠ 5) (hj8 : j ≠ 8)
    (hj11 : j ≠ 11) :
    ((writeVertex d nw vs v).getD v0 []).getD j x = (vs.getD v0 []).getD j x := by
  by_cases h : v0 = v
  · subst h
    by_cases hlen : v0 < vs.length
    · have hset : (writeVertex d nw vs v0).getD v0 [] =
          ((((vs.getD v0 []).set 2 (d.getD (vertex_length_index nw v0) 0)).set 5
              (d.getD (vertex_length_index nw (3 * (v0 / 3))) 0)).set 8
              (d.getD (vertex_length_index nw (3 * (v0 / 3) + 1)) 0)).set 11
              (d.getD (vertex_length_index nw (3 * (v0 / 3) + 2)) 0) := by
        unfold writeVertex
        rw [List.getD_eq_getElem?_getD, List.getElem?_set_self hlen]
        rfl
      rw [hset, getD_set_of_ne _ _ _ _ _ (fun he => hj11 he.symm),
        getD_set_of_ne _ _ _ _ _ (fun he => hj8 he.symm),
        getD_set_of_ne _ _ _ _ _ (fun he => hj5 he.symm),
        getD_set_of_ne _ _ _ _ _ (fun he => hj2 he.symm)]
    · have h1 : (writeVertex d nw vs v0).getD v0 [] = [] := by
        unfold writeVertex
        rw [List.getD_eq_getElem?_getD,
          List.getElem?_eq_none (by simp only [List.length_set]; omega)]
        rfl
      have h2 : vs.getD v0 [] = ([] : List ℝ) := by
        rw [List.getD_eq_getElem?_getD, List.getElem?_eq_none (by omega)]
        rfl
      rw [h1, h2]
  · rw [writeVertex_getD_of_ne d nw vs v v0 h]

lemma foldl_writeVertex_not_mem (d : List ℝ) (nw : ℕ) :
    ∀ (l : List ℕ) (vs : List (List ℝ)) (v0 : ℕ), v0 ∉ l →
      (l.foldl (writeVertex d nw) vs).getD v0 [] = vs.getD v0 [] := by
  intro l
  induction l with
  | nil => intro vs v0 _; rfl
  | cons a t ih =>
    intro vs v0 h
    rw [List.foldl_cons, ih _ _ (fun hm => h (List.mem_cons_of_mem a hm)),
      writeVertex_getD_of_ne _ _ _ _ _
        (fun he => h (by rw [he]; exact List.mem_cons_self a t))]

lemma foldl_writeVertex_getD_getD (d : List ℝ) (nw : ℕ) (j : ℕ) (x : ℝ)
    (hj2 : j ≠ 2) (hj5 : j ≠ 5) (hj8 : j ≠ 8) (hj11 : j ≠ 11) :
    ∀ (l : List ℕ) (vs : List (List ℝ)) (v0 : ℕ),
      ((l.foldl (writeVertex d nw) vs).getD v0 []).getD j x =
        (vs.getD v0 []).getD j x := by
  intro l
  induction l with
  | nil => intro vs v0; rfl
  | cons a t ih =>
    intro vs v0
    rw [List.foldl_cons, ih, writeVertex_getD_getD d nw vs a v0 j x hj2 hj5 hj8 hj11]

lemma foldl_processRange_verts_outside (nl nw : ℕ) (d : List ℝ) (v0 : ℕ) :
    ∀ (rs : List (ℕ × ℕ)) (vs : List (List ℝ)) (out : List (ℕ × ℕ)),
      (∀ r ∈ rs, v0 < vstart nw r ∨ vstop nl nw r ≤ v0) →
      ((rs.foldl (processRange nl nw d) (vs, out)).1).getD v0 [] =
        vs.getD v0 [] := by
  intro rs
  induction rs with
  | nil => intro vs out _; rfl
  | cons a t ih =>
    intro vs out h
    rw [List.foldl_cons, processRange_eq,
      ih _ _ (fun r hr => h r (List.mem_cons_of_mem a hr)),
      foldl_writeVertex_not_mem]
    intro hm
    rw [List.mem_range'_1] at hm
    rcases h a (List.mem_cons_self a t) with hlt | hge <;> omega

lemma foldl_processRange_verts_j (nl nw : ℕ) (d : List ℝ) (j : ℕ) (x : ℝ)
    (hj2 : j ≠ 2) (hj5 : j ≠ 5) (hj8 : j ≠ 8) (hj11 : j ≠ 11) :
    ∀ (rs : List (ℕ × ℕ)) (vs : List (List ℝ)) (out : List (ℕ × ℕ)) (v0 : ℕ),
      (((rs.foldl (processRange nl nw d) (vs, out)).1).getD v0 []).getD j x =
        (vs.getD v0 []).getD j x := by
  intro rs
  induction rs with
  | nil => intro vs out v0; rfl
  | cons a t ih =>
    intro vs out v0
    rw [List.foldl_cons, processRange_eq, ih,
      foldl_writeVertex_getD_getD d nw j x hj2 hj5 hj8 hj11]

/-! Section: Structure of the emitted grid -/

lemma quadVerts_eq {β : Type} (ul ll ur lr : β) :
    quadVerts ul ll ur lr =
      [[ll, ll, ur, ul], [ur, ll, ur, ul], [ul, ll, ur, ul],
       [ur, ur, ll, lr], [ll, ur, ll, lr], [lr, ur, ll, lr]] := rfl

lemma quadVerts_length {β : Type} (ul ll ur lr : β) :
    (quadVerts ul ll ur lr).length = 6 := rfl

lemma length_flatMap_range {γ : Type} (g : ℕ → List γ) (K : ℕ)
    (hK : ∀ n, (g n).length = K) (N : ℕ) :
    ((List.range N).flatMap g).length = N * K := by
  induction N with
  | zero => simp
  | succ N ih =>
    rw [List.range_succ, List.flatMap_append, List.length_append, ih]
    simp only [List.flatMap_cons, List.flatMap_nil, List.append_nil, hK]
    ring

lemma getD_flatMap_range {γ : Type} (g : ℕ → List γ) (K : ℕ)
    (hK : ∀ n, (g n).length = K) :
    ∀ (N v : ℕ), v < N * K → ∀ dflt : γ,
      ((List.range N).flatMap g).getD v dflt = (g (v / K)).getD (v % K) dflt := by
  intro N
  induction N with
  | zero => intro v hv; omega
  | succ N ih =>
    intro v hv dflt
    have hKpos : 0 < K := by
      rcases Nat.eq_zero_or_pos K with h | h
      · subst h; omega
      · exact h
    rw [List.range_succ, List.flatMap_append,
      show ([N].flatMap g) = g N by simp]
    have hlen : ((List.range N).flatMap g).length = N * K :=
      length_flatMap_range g K hK N
    by_cases hc : v < N * K
    · rw [List.getD_append _ _ _ _ (by omega), ih v hc]
    · have hv2 : v < N * K + K := by
        have : (N + 1) * K = N * K + K := by ring
        omega
      rw [List.getD_append_right _ _ _ _ (by omega), hlen]
      have h1 : v / K = N := Nat.div_eq_of_lt_le (by omega) (by
        rw [Nat.succ_mul]; omega)
      have h2 : v % K = v - N * K := by
        have h3 : v - N * K < K := by omega
        have h4 : v = (v - N * K) + N * K := by omega
        calc v % K = ((v - N * K) + N * K) % K := by rw [← h4]
          _ = (v - N * K) % K := Nat.add_mul_mod_self_right _ N K
          _ = v - N * K := Nat.mod_eq_of_lt h3
      rw [h1, h2]

lemma gridVerts_length {β : Type} (nl nw : ℕ) (corner : ℕ → ℕ → β) :
    (gridVerts nl nw corner).length = nl * (nw * 6) := by
  unfold gridVerts
  exact length_flatMap_range _ (nw * 6)
    (fun n => length_flatMap_range _ 6 (fun w => quadVerts_length _ _ _ _) nw) nl

/-- Index arithmetic of the emitted grid: global vertex `v` is vertex
`v % (nw * 6) % 6` of the quad at length position `v / (nw * 6)` and width
position `v % (nw * 6) / 6`. -/
lemma gridVerts_getD {β : Type} (nl nw : ℕ) (corner : ℕ → ℕ → β) (v : ℕ)
    (hv : v < nl * (nw * 6)) (dflt : List β) :
    (gridVerts nl nw corner).getD v dflt =
      (quadVerts (corner (v / (nw * 6)) (v % (nw * 6) / 6 + 1))
          (corner (v / (nw * 6)) (v % (nw * 6) / 6))
          (corner (v / (nw * 6) + 1) (v % (nw * 6) / 6 + 1))
          (corner (v / (nw * 6) + 1) (v % (nw * 6) / 6))).getD
        (v % (nw * 6) % 6) dflt := by
  unfold gridVerts
  rw [getD_flatMap_range _ (nw * 6)
    (fun n => length_flatMap_range _ 6 (fun w => quadVerts_length _ _ _ _) nw)
    nl v hv dflt]
  have hw6 : 0 < nw * 6 := by
    rcases Nat.eq_zero_or_pos (nw * 6) with h | h
    · rw [h, mul_zero] at hv; omega
    · exact h
  rw [getD_flatMap_range _ 6 (fun w => quadVerts_length _ _ _ _) nw
    (v % (nw * 6)) (Nat.mod_lt v hw6) dflt]

/-- Within one quad (corners paired as grid indices), the own corner of
emitted vertex `i` lies on length line `n` for even `i` and `n + 1` for odd
`i`. -/
lemma quadVerts_own_fst (n w i : ℕ) (hi : i < 6) :
    (((quadVerts ((n, w + 1) : ℕ × ℕ) (n, w) (n + 1, w + 1) (n + 1, w)).getD i
        []).getD 0 (0, 0)).1 = n + i % 2 := by
  rw [quadVerts_eq]
  interval_cases i <;> rfl

lemma grid_index_arith (nw v : ℕ) :
    v / (6 * nw) + v % 2 = v / (nw * 6) + v % (nw * 6) % 6 % 2 := by
  have e1 : v % (nw * 6) % 6 = v % 6 := Nat.mod_mod_of_dvd v ⟨nw, by ring⟩
  have e2 : v % 6 % 2 = v % 2 := Nat.mod_mod_of_dvd v (by norm_num)
  rw [e1, e2, mul_comm nw 6]

/-- The own length index of global vertex `v` of the emitted grid is
`v / (6 * nwidth) + v % 2` — the formula hard-coded in
`WaveMesh::vertex_length_index`. -/
lemma gridVerts_own_fst (nl nw v : ℕ) (hv : v < nl * nw * 6) :
    (((gridVerts nl nw Prod.mk).getD v []).getD 0 (0, 0)).1 =
      v / (6 * nw) + v % 2 := by
  have hv' : v < nl * (nw * 6) := by rw [← mul_assoc]; exact hv
  rw [gridVerts_getD nl nw Prod.mk v hv' [],
    quadVerts_own_fst (v / (nw * 6)) (v % (nw * 6) / 6) (v % (nw * 6) % 6)
      (Nat.mod_lt _ (by omega)),
    grid_index_arith nw v]

lemma make_grid_getD (nl nw : ℕ) (len wid z : ℝ) (v : ℕ) :
    (make_grid nl nw len wid z).getD v [] =
      ((gridVerts nl nw (gridCorner nl nw len wid z)).getD v []).flatten := by
  unfold make_grid
  rw [List.getD_eq_getElem?_getD, List.getElem?_map, List.getD_eq_getElem?_getD]
  cases h : (gridVerts nl nw (gridCorner nl nw len wid z))[v]? with
  | none => simp
  | some a => simp

/-- The emitted 12-float vertex record of the modelled grid: the own
position is the interpolated corner at the vertex's own length index (and
some width line `j`), and all four z slots (flat positions 2, 5, 8, 11)
hold the base height `z`. -/
lemma make_grid_own (nl nw : ℕ) (len wid z : ℝ) (v : ℕ)
    (hv : v < nl * (nw * 6)) (hw : 1 ≤ nw) :
    (∃ j, j ≤ nw ∧ ((make_grid nl nw len wid z).getD v []).take 3 =
      [((v / (6 * nw) + v % 2 : ℕ) : ℝ) * len / (nl : ℝ),
       (j : ℝ) * wid / (nw : ℝ), z]) ∧
    ∀ s, s < 4 → ((make_grid nl nw len wid z).getD v []).getD (s * 3 + 2) 0 = z := by
  have hrec := gridVerts_getD nl nw (gridCorner nl nw len wid z) v hv []
  have hmg := make_grid_getD nl nw len wid z v
  rw [hrec] at hmg
  have hi : v % (nw * 6) % 6 < 6 := Nat.mod_lt _ (by omega)
  have hwlt : v % (nw * 6) / 6 < nw :=
    Nat.div_lt_iff_lt_mul (by omega) |>.mpr (Nat.mod_lt _ (by omega))
  have harith := grid_index_arith nw v
  have h6 : v % (nw * 6) % 6 = 0 ∨ v % (nw * 6) % 6 = 1 ∨
      v % (nw * 6) % 6 = 2 ∨ v % (nw * 6) % 6 = 3 ∨
      v % (nw * 6) % 6 = 4 ∨ v % (nw * 6) % 6 = 5 := by omega
  rcases h6 with h | h | h | h | h | h
  all_goals rw [h] at hmg harith
  all_goals rw [quadVerts_eq] at hmg
  · refine ⟨⟨v % (nw * 6) / 6, le_of_lt hwlt, by rw [hmg, harith]; rfl⟩, ?_⟩
    intro s hs
    have hs4 : s = 0 ∨ s = 1 ∨ s = 2 ∨ s = 3 := by omega
    rcases hs4 with h4 | h4 | h4 | h4 <;> rw [h4, hmg] <;> rfl
  · refine ⟨⟨v % (nw * 6) / 6 + 1, hwlt, by rw [hmg, harith]; rfl⟩, ?_⟩
    intro s hs
    have hs4 : s = 0 ∨ s = 1 ∨ s = 2 ∨ s = 3 := by omega
    rcases hs4 with h4 | h4 | h4 | h4 <;> rw [h4, hmg] <;> rfl
  · refine ⟨⟨v % (nw * 6) / 6 + 1, hwlt, by rw [hmg, harith]; rfl⟩, ?_⟩
    intro s hs
    have hs4 : s = 0 ∨ s = 1 ∨ s = 2 ∨ s = 3 := by omega
    rcases hs4 with h4 | h4 | h4 | h4 <;> rw [h4, hmg] <;> rfl
  · refine ⟨⟨v % (nw * 6) / 6 + 1, hwlt, by rw [hmg, harith]; rfl⟩, ?_⟩
    intro s hs
    have hs4 : s = 0 ∨ s = 1 ∨ s = 2 ∨ s = 3 := by omega
    rcases hs4 with h4 | h4 | h4 | h4 <;> rw [h4, hmg] <;> rfl
  · refine ⟨⟨v % (nw * 6) / 6, le_of_lt hwlt, by rw [hmg, harith]; rfl⟩, ?_⟩
    intro s hs
    have hs4 : s = 0 ∨ s = 1 ∨ s = 2 ∨ s = 3 := by omega
    rcases hs4 with h4 | h4 | h4 | h4 <;> rw [h4, hmg] <;> rfl
  · refine ⟨⟨v % (nw * 6) / 6, le_of_lt hwlt, by rw [hmg, harith]; rfl⟩, ?_⟩
    intro s hs
    have hs4 : s = 0 ∨ s = 1 ∨ s = 2 ∨ s = 3 := by omega
    rcases hs4 with h4 | h4 | h4 | h4 <;> rw [h4, hmg] <;> rfl

/-! Section: Arithmetic of the range-to-vertex conversion -/

/-- Any vertex of the converted span `[vstart, vend)` maps back (via
`vertex_length_index`) into `[lo, hi]`, extended by one when `hi < nlength`. -/
lemma vertex_span_bounds (nl nw : ℕ) (r : ℕ × ℕ) (hw : 1 ≤ nw) (v : ℕ)
    (h1 : vstart nw r ≤ v) (h2 : v < vstop nl nw r) :
    r.1 ≤ vertex_length_index nw v ∧
      vertex_length_index nw v ≤ r.2 + (if r.2 < nl then 1 else 0) := by
  unfold vstart vstop vertex_length_index at *
  set b := (if r.2 < nl then 1 else 0) with hb
  have hb01 : b = 0 ∨ b = 1 := by
    rw [hb]; split <;> simp
  have h6 : 0 < 6 * nw := by omega
  have hE1 : r.1 * nw * 6 = r.1 * (6 * nw) := by ring
  have hE2 : (r.2 + b) * nw * 6 = (r.2 + b) * (6 * nw) := by ring
  constructor
  · have hlow : r.1 * (6 * nw) ≤ v := by omega
    have := (Nat.le_div_iff_mul_le h6).mpr hlow
    omega
  · have hhigh : v < (r.2 + b) * (6 * nw) := by omega
    have hdiv : v / (6 * nw) < r.2 + b := (Nat.div_lt_iff_lt_mul h6).mpr hhigh
    omega

/-- Every valid vertex index maps to a length index of at most `nlength`. -/
lemma vertex_length_index_le (nl nw v : ℕ) (hw : 1 ≤ nw)
    (hv : v < nl * nw * 6) :
    vertex_length_index nw v ≤ nl := by
  unfold vertex_length_index
  have h6 : 0 < 6 * nw := by omega
  have hE : nl * nw * 6 = nl * (6 * nw) := by ring
  have hdiv : v / (6 * nw) < nl := (Nat.div_lt_iff_lt_mul h6).mpr (by omega)
  omega

lemma vstop_pos (nl nw : ℕ) (r : ℕ × ℕ) (hnl : 1 ≤ nl) (hnw : 1 ≤ nw) :
    1 ≤ vstop nl nw r := by
  unfold vstop
  have hb : 1 ≤ r.2 + (if r.2 < nl then 1 else 0) := by split <;> omega
  have := Nat.mul_le_mul (Nat.mul_le_mul hb hnw) (le_refl 6)
  omega

lemma vstop_le (nl nw : ℕ) (r : ℕ × ℕ) (hr2 : r.2 ≤ nl) :
    vstop nl nw r ≤ nl * nw * 6 := by
  unfold vstop
  have hb : r.2 + (if r.2 < nl then 1 else 0) ≤ nl := by split <;> omega
  exact Nat.mul_le_mul (Nat.mul_le_mul hb (le_refl nw)) (le_refl 6)

lemma vstart_lt_vstop (nl nw : ℕ) (r : ℕ × ℕ) (hw : 1 ≤ nw) (hnl : 1 ≤ nl)
    (hr1 : r.1 ≤ r.2) (hr2 : r.2 ≤ nl) (hsing : r.1 = r.2 → r.1 = 0) :
    vstart nw r < vstop nl nw r := by
  unfold vstart vstop
  set b := (if r.2 < nl then 1 else 0) with hb
  have hbval : (r.2 < nl ∧ b = 1) ∨ (r.2 = nl ∧ b = 0 ∧ ¬ r.2 < nl) := by
    rw [hb]
    split
    · rename_i h
      exact Or.inl ⟨h, rfl⟩
    · rename_i h
      exact Or.inr ⟨by omega, rfl, h⟩
  have hX : 6 ≤ nw * 6 := by omega
  have hE1 : r.1 * nw * 6 = r.1 * (nw * 6) := by ring
  have hE2 : (r.2 + b) * nw * 6 = (r.2 + b) * (nw * 6) := by ring
  have hE3 : (r.1 + 1) * (nw * 6) = r.1 * (nw * 6) + nw * 6 := by ring
  have hmod : r.1 % 2 ≤ 1 := by omega
  rcases hbval with ⟨hlt, hb1⟩ | ⟨heq, hb0, -⟩
  · have hmul : (r.1 + 1) * (nw * 6) ≤ (r.2 + b) * (nw * 6) :=
      Nat.mul_le_mul_right _ (by omega)
    omega
  · have hlt2 : r.1 < r.2 := by
      rcases Nat.lt_or_ge r.1 r.2 with h | h
      · exact h
      · have : r.1 = r.2 := by omega
        have := hsing this
        omega
    have hmul : (r.1 + 1) * (nw * 6) ≤ (r.2 + b) * (nw * 6) :=
      Nat.mul_le_mul_right _ (by omega)
    omega

lemma vstop_le_vstart (nl nw : ℕ) (a c : ℕ × ℕ) (h : a.2 + 1 ≤ c.1) :
    vstop nl nw a ≤ vstart nw c := by
  unfold vstop vstart
  have hba : a.2 + (if a.2 < nl then 1 else 0) ≤ c.1 := by split <;> omega
  have := Nat.mul_le_mul (Nat.mul_le_mul hba (le_refl nw)) (le_refl 6)
  omega

/-- Inside a converted span, the three triangle-companion indices `vt`,
`vt + 1`, `vt + 2` stay below `vend` (which is divisible by 3). -/
lemma triangle_indices_lt_vstop (nl nw : ℕ) (r : ℕ × ℕ) (v : ℕ)
    (h2 : v < vstop nl nw r) :
    3 * (v / 3) + 2 < vstop nl nw r := by
  have h3 : vstop nl nw r = 3 * ((r.2 + (if r.2 < nl then 1 else 0)) * nw * 2) := by
    unfold vstop; ring
  omega

/-! Section: Concrete detection runs -/

/-- The displacement array of the scenario after a frame at `elapsed = 0`:
`[0, 0.2, 0, -0.2, 0]`. -/
noncomputable def scenarioPrev : List ℝ := [0, 0.2, 0, -0.2, 0]

lemma scenario_detect_25 :
    (detect 4 (fun n => displacement scenario n 2.5) scenarioPrev).1 =
      [(0, 4)] := by
  have hch0 : Changed (fun n => displacement scenario n 2.5) scenarioPrev 0 := by
    show displacement scenario 0 2.5 ≠ scenarioPrev.getD 0 0
    rw [scenario_d025]
    show (-0.2 : ℝ) ≠ 0
    norm_num
  have hch1 : Changed (fun n => displacement scenario n 2.5) scenarioPrev 1 := by
    show displacement scenario 1 2.5 ≠ scenarioPrev.getD 1 0
    rw [scenario_d125]
    show (0 : ℝ) ≠ 0.2
    norm_num
  have hch2 : Changed (fun n => displacement scenario n 2.5) scenarioPrev 2 := by
    show displacement scenario 2 2.5 ≠ scenarioPrev.getD 2 0
    rw [scenario_d225]
    show (0.2 : ℝ) ≠ 0
    norm_num
  have hch3 : Changed (fun n => displacement scenario n 2.5) scenarioPrev 3 := by
    show displacement scenario 3 2.5 ≠ scenarioPrev.getD 3 0
    rw [scenario_d325]
    show (0 : ℝ) ≠ -0.2
    norm_num
  have hch4 : Changed (fun n => displacement scenario n 2.5) scenarioPrev 4 := by
    show displacement scenario 4 2.5 ≠ scenarioPrev.getD 4 0
    rw [scenario_d425]
    show (-0.2 : ℝ) ≠ 0
    norm_num
  have h0 : (detectUpTo (fun n => displacement scenario n 2.5) scenarioPrev 0).1
      = [] := rfl
  have h1 : (detectUpTo (fun n => displacement scenario n 2.5) scenarioPrev 1).1
      = [(0, 0)] := by
    rw [detectUpTo_fst_succ, if_pos hch0, h0]
    rfl
  have h2 : (detectUpTo (fun n => displacement scenario n 2.5) scenarioPrev 2).1
      = [(0, 1)] := by
    rw [detectUpTo_fst_succ, if_pos hch1, h1]
    rfl
  have h3 : (detectUpTo (fun n => displacement scenario n 2.5) scenarioPrev 3).1
      = [(0, 2)] := by
    rw [detectUpTo_fst_succ, if_pos hch2, h2]
    rfl
  have h4 : (detectUpTo (fun n => displacement scenario n 2.5) scenarioPrev 4).1
      = [(0, 3)] := by
    rw [detectUpTo_fst_succ, if_pos hch3, h3]
    rfl
  show (detectUpTo (fun n => displacement scenario n 2.5) scenarioPrev 5).1
      = [(0, 4)]
  rw [detectUpTo_fst_succ, if_pos hch4, h4]
  rfl

/-- The vertex ranges forwarded in the scenario frame at `elapsed = 2.5`. -/
lemma scenario_ranges_25 :
    (scenario.update 2.5 scenarioPrev []).ranges = [(0, 23)] := by
  show (update scenario.nlength scenario.nwidth
    (fun n => displacement scenario n 2.5) scenarioPrev []).ranges = [(0, 23)]
  rw [update_ranges_eq]
  show ((detect 4 (fun n => displacement scenario n 2.5) scenarioPrev).1).map
    (fun r => (vstart 1 r, vstop 4 1 r - 1)) = [(0, 23)]
  rw [scenario_detect_25]
  rfl

/-- The stored displacement array after the scenario frame at `elapsed = 0`
is exactly `[0, 0.2, 0, -0.2, 0]`. -/
lemma scenario_disp0 :
    (scenario.update 0 (init_displacement scenario) []).disp = scenarioPrev := by
  have hlen : (scenario.update 0 (init_displacement scenario) []).disp.length
      = 5 := by
    show (detectUpTo (fun n => displacement scenario n 0)
      (init_displacement scenario) 5).2.length = 5
    rw [detectUpTo_disp_length]
    rfl
  apply List.ext_getElem
  · rw [hlen]; rfl
  intro i h1 h2
  rw [← List.getD_eq_getElem _ 0 h1, ← List.getD_eq_getElem _ 0 h2]
  have hi5 : i < 5 := by rw [hlen] at h1; exact h1
  show (detectUpTo (fun n => displacement scenario n 0)
    (init_displacement scenario) 5).2.getD i 0 = scenarioPrev.getD i 0
  rw [detectUpTo_disp_getD]
  rw [if_pos ⟨hi5, by show i < (List.replicate 5 (0:ℝ)).length; simpa using hi5⟩]
  interval_cases i
  · exact scenario_d00
  · exact scenario_d10
  · exact scenario_d20
  · exact scenario_d30
  · exact scenario_d40

/-! Section: Concrete displacement patterns for the range-detection claims -/

/-- A fresh-displacement function differing from an all-zero stored array
exactly at indices 2 and 4. -/
noncomputable def bump24 : ℕ → ℝ := fun n => if n = 2 ∨ n = 4 then 1 else 0

/-- A fresh-displacement function differing from an all-zero stored array
exactly at index 1. -/
noncomputable def bump1 : ℕ → ℝ := fun n => if n = 1 then 1 else 0

/-- An all-zero stored displacement array for `nlength = 4`. -/
noncomputable def zeros5 : List ℝ := [0, 0, 0, 0, 0]

lemma bump24_changed2 : Changed bump24 zeros5 2 := by
  show bump24 2 ≠ zeros5.getD 2 0
  simp [bump24, zeros5]

lemma bump24_changed4 : Changed bump24 zeros5 4 := by
  show bump24 4 ≠ zeros5.getD 4 0
  simp [bump24, zeros5]

lemma bump24_unchanged (n : ℕ) (h0 : n ≠ 2) (h1 : n ≠ 4) :
    ¬ Changed bump24 zeros5 n := by
  show ¬ (bump24 n ≠ zeros5.getD n 0)
  rw [not_not, bump24]
  simp only [h0, h1, or_self, if_false]
  have h5 : n < 5 ∨ 5 ≤ n := by omega
  rcases h5 with h | h
  · interval_cases n <;> rfl
  · rw [List.getD_eq_getElem?_getD, List.getElem?_eq_none (by simp [zeros5]; omega)]
    rfl

/-- The detection run on `bump24`: two dirty ranges that are adjacent. -/
lemma bump24_detect : (detect 4 bump24 zeros5).1 = [(1, 2), (3, 4)] := by
  have h0 : (detectUpTo bump24 zeros5 0).1 = [] := rfl
  have h1 : (detectUpTo bump24 zeros5 1).1 = [] := by
    rw [detectUpTo_fst_succ, if_neg (bump24_unchanged 0 (by omega) (by omega))]
    exact h0
  have h2 : (detectUpTo bump24 zeros5 2).1 = [] := by
    rw [detectUpTo_fst_succ, if_neg (bump24_unchanged 1 (by omega) (by omega))]
    exact h1
  have h3 : (detectUpTo bump24 zeros5 3).1 = [(1, 2)] := by
    rw [detectUpTo_fst_succ, if_pos bump24_changed2, h2]
    rfl
  have h4 : (detectUpTo bump24 zeros5 4).1 = [(1, 2)] := by
    rw [detectUpTo_fst_succ, if_neg (bump24_unchanged 3 (by omega) (by omega))]
    exact h3
  show (detectUpTo bump24 zeros5 5).1 = [(1, 2), (3, 4)]
  rw [detectUpTo_fst_succ, if_pos bump24_changed4, h4]
  rfl

lemma bump1_changed1 : Changed bump1 zeros5 1 := by
  show bump1 1 ≠ zeros5.getD 1 0
  simp [bump1, zeros5]

lemma bump1_unchanged (n : ℕ) (h0 : n ≠ 1) : ¬ Changed bump1 zeros5 n := by
  show ¬ (bump1 n ≠ zeros5.getD n 0)
  rw [not_not, bump1]
  simp only [h0, if_false]
  have h5 : n < 5 ∨ 5 ≤ n := by omega
  rcases h5 with h | h
  · interval_cases n <;> rfl
  · rw [List.getD_eq_getElem?_getD, List.getElem?_eq_none (by simp [zeros5]; omega)]
    rfl

/-- The detection run on `bump1`: one dirty range `[0, 1]` (with backstop 0). -/
lemma bump1_detect : (detect 4 bump1 zeros5).1 = [(0, 1)] := by
  have h0 : (detectUpTo bump1 zeros5 0).1 = [] := rfl
  have h1 : (detectUpTo bump1 zeros5 1).1 = [] := by
    rw [detectUpTo_fst_succ, if_neg (bump1_unchanged 0 (by omega))]
    exact h0
  have h2 : (detectUpTo bump1 zeros5 2).1 = [(0, 1)] := by
    rw [detectUpTo_fst_succ, if_pos bump1_changed1, h1]
    rfl
  have h3 : (detectUpTo bump1 zeros5 3).1 = [(0, 1)] := by
    rw [detectUpTo_fst_succ, if_neg (bump1_unchanged 2 (by omega))]
    exact h2
  have h4 : (detectUpTo bump1 zeros5 4).1 = [(0, 1)] := by
    rw [detectUpTo_fst_succ, if_neg (bump1_unchanged 3 (by omega))]
    exact h3
  show (detectUpTo bump1 zeros5 5).1 = [(0, 1)]
  rw [detectUpTo_fst_succ, if_neg (bump1_unchanged 4 (by omega))]
  exact h4

/-! Section: Claim theorems -/

/-- C1 (amended): after the range-detection step of `update(elapsed)`, for
every previous and current displacement array the computed dirty-range list
covers exactly the length indices in `0..nlength` whose values differ,
extended by at most one index backward per range (the `max(n-1,0)` backstop),
and the ranges are disjoint and increasing.  (The original claim's
"no two ranges are adjacent" is dropped: adjacent ranges do occur, see the
counterexample.) -/
theorem C1_range_detection (f : ℕ → ℝ) (d : List ℝ) (nlength : ℕ) :
    List.Chain' (fun a c => a.2 + 1 ≤ c.1) (detect nlength f d).1 ∧
    (∀ r ∈ (detect nlength f d).1, r.1 ≤ r.2 ∧ r.2 ≤ nlength) ∧
    (∀ r ∈ (detect nlength f d).1, ∀ k, r.1 ≤ k → k ≤ r.2 →
      Changed f d k ∨ (k = r.1 ∧ Changed f d (k + 1))) ∧
    (∀ k, k ≤ nlength → Changed f d k →
      ∃ r ∈ (detect nlength f d).1, r.1 ≤ k ∧ k ≤ r.2) := by
  obtain ⟨hc, hb, hs, he, hv⟩ := detect_inv nlength f d
  refine ⟨hc, fun r hr => ?_, he, fun k hk hck => hv k (by omega) hck⟩
  have := hb r hr
  omega

/-- C1 counterexample: with stored zeros and fresh values changed exactly at
length indices 2 and 4, detection produces the ranges `(1,2)` and `(3,4)`,
which are adjacent (`2 + 1 = 3`) — refuting "no two ranges in the list are
adjacent". -/
theorem C1_counterexample :
    (detect 4 bump24 zeros5).1 = [(1, 2), (3, 4)] ∧
    ¬ List.Chain' (fun a c => a.2 + 2 ≤ c.1) (detect 4 bump24 zeros5).1 := by
  refine ⟨bump24_detect, ?_⟩
  rw [bump24_detect]
  intro h
  exact absurd (List.chain'_cons.mp h).1 (by decide)

/-- C1 witness: the changed index 2 of the `bump24` pattern is covered by a
detected range. -/
theorem C1_witness :
    ∃ r ∈ (detect 4 bump24 zeros5).1, r.1 ≤ 2 ∧ 2 ≤ r.2 :=
  (C1_range_detection bump24 zeros5 4).2.2.2 2 (by omega) bump24_changed2

/-- C2: for every length index `n ≤ nlength` and every elapsed time,
`displacement(n, elapsed)` equals `wave_func(n·length/nlength −
wave_velocity·elapsed)` where `wave_func` takes the remainder modulo
`wave_full_period` normalized into `[0, wave_full_period)`, returns `0` when
it exceeds `wave_period`, and `0.2·sin(wave_number·r)` otherwise. -/
theorem C2_displacement_formula (m : WaveMesh) (n : ℕ) (t : ℝ)
    (_hn : n ≤ m.nlength) (hp : 0 < wave_full_period m) :
    displacement m n t = spec_displacement m n t ∧
    ∀ x : ℝ, 0 ≤ spec_mod x (wave_full_period m) ∧
      spec_mod x (wave_full_period m) < wave_full_period m := by
  refine ⟨?_, fun x => ⟨spec_mod_nonneg x _ hp, spec_mod_lt x _ hp⟩⟩
  rw [displacement, spec_displacement, wave_func_eq_spec m _ hp]

/-- C2 witness: the refinement instantiated in the scenario at `n = 1`,
`t = 0`. -/
theorem C2_witness :
    (1 ≤ scenario.nlength ∧ 0 < wave_full_period scenario) ∧
    displacement scenario 1 0 = spec_displacement scenario 1 0 := by
  have hp : 0 < wave_full_period scenario := by
    rw [scenario_full]; norm_num
  exact ⟨⟨by decide, hp⟩, (C2_displacement_formula scenario 1 0 (by decide) hp).1⟩

/-- C3: in the grid emitted with the fixed per-quad order
`{ll, ur, ul, ur, ll, lr}`, the own length index of global vertex `v` is
`v / (6·nwidth) + v % 2` (the `vertex_length_index` formula), and within one
quad the even positions carry `n`, the odd positions `n + 1`. -/
theorem C3_vertex_length_invariant (nl nw v : ℕ) (hv : v < nl * nw * 6) :
    (((gridVerts nl nw Prod.mk).getD v []).getD 0 (0, 0)).1 =
        v / (6 * nw) + v % 2 ∧
    (((gridVerts nl nw Prod.mk).getD v []).getD 0 (0, 0)).1 =
        vertex_length_index nw v ∧
    ∀ n w i : ℕ, i < 6 →
      (((quadVerts ((n, w + 1) : ℕ × ℕ) (n, w) (n + 1, w + 1)
          (n + 1, w)).getD i []).getD 0 (0, 0)).1 = n + i % 2 :=
  ⟨gridVerts_own_fst nl nw v hv, gridVerts_own_fst nl nw v hv,
    fun n w i hi => quadVerts_own_fst n w i hi⟩

/-- C3 witness: the formula evaluated on a concrete grid vertex. -/
theorem C3_witness :
    (((gridVerts 2 3 Prod.mk).getD 7 []).getD 0 (0, 0)).1 =
      7 / (6 * 3) + 7 % 2 :=
  (C3_vertex_length_invariant 2 3 7 (by decide)).1

/-- C4 (amended): every vertex of a converted span `[vstart, vend)` maps
back via `vertex_length_index` into `[lo, hi]` when `hi = nlength` and into
`[lo, hi + 1]` when `hi < nlength` — the upper boundary can overshoot by
exactly the one extra quad row added by the `hi < nlength` extension. -/
theorem C4_vertex_coverage (nl nw : ℕ) (r : ℕ × ℕ) (hw : 1 ≤ nw) (v : ℕ)
    (h1 : vstart nw r ≤ v) (h2 : v < vstop nl nw r) :
    r.1 ≤ vertex_length_index nw v ∧
      vertex_length_index nw v ≤ r.2 + (if r.2 < nl then 1 else 0) :=
  vertex_span_bounds nl nw r hw v h1 h2

/-- C4 counterexample: the dirty range `(0,1)` produced by the `bump1`
pattern converts to the vertex span `[0, 12)`, and vertex 11 of that span
maps back to length index 2, outside `[0, 1]`. -/
theorem C4_counterexample :
    (detect 4 bump1 zeros5).1 = [(0, 1)] ∧
    vstart 1 (0, 1) ≤ 11 ∧ 11 < vstop 4 1 (0, 1) ∧
    ¬ vertex_length_index 1 11 ≤ (0, 1).2 :=
  ⟨bump1_detect, by decide, by decide, by decide⟩

/-- C4 witness: the amended bounds evaluated for range `(0,1)` at vertex 7. -/
theorem C4_witness :
    (0, 1).1 ≤ vertex_length_index 1 7 ∧
      vertex_length_index 1 7 ≤ (0, 1).2 + (if (0, 1).2 < 4 then 1 else 0) :=
  C4_vertex_coverage 4 1 (0, 1) (by decide) 7 (by decide) (by decide)

/-- C5: calling `update(t)` twice with the same `t` yields an empty
dirty-range list on the second call; with an empty dirty-range list no
vertex range is forwarded to `Mesh::update_vbo` and the vertex store is
untouched. -/
theorem C5_idempotent (m : WaveMesh) (t : ℝ) (d : List ℝ)
    (vs : List (List ℝ)) (hd : d.length = m.nlength + 1) :
    (detect m.nlength (fun n => displacement m n t)
      (m.update t d vs).disp).1 = [] ∧
    (m.update t (m.update t d vs).disp (m.update t d vs).verts).ranges = [] ∧
    (m.update t (m.update t d vs).disp (m.update t d vs).verts).verts =
      (m.update t d vs).verts := by
  have hkey : (detect m.nlength (fun n => displacement m n t)
      (m.update t d vs).disp).1 = [] := by
    apply detectUpTo_fst_nil
    intro n hn hch
    apply hch
    show displacement m n t = ((m.update t d vs).disp).getD n 0
    have he : (m.update t d vs).disp =
        (detectUpTo (fun k => displacement m k t) d (m.nlength + 1)).2 := rfl
    rw [he, detectUpTo_disp_getD, if_pos ⟨hn, by omega⟩]
  refine ⟨hkey, ?_, ?_⟩
  · show (update m.nlength m.nwidth (fun n => displacement m n t)
      (m.update t d vs).disp (m.update t d vs).verts).ranges = []
    rw [update_ranges_eq, hkey]
    rfl
  · show (update m.nlength m.nwidth (fun n => displacement m n t)
      (m.update t d vs).disp (m.update t d vs).verts).verts = _
    rw [update_verts_eq, hkey]
    rfl

/-- C5 witness: a second frame at `t = 0` on the scenario detects nothing. -/
theorem C5_witness :
    (detect scenario.nlength (fun n => displacement scenario n 0)
      ((scenario.update 0 zeros5 []).disp)).1 = [] :=
  (C5_idempotent scenario 0 zeros5 [] rfl).1

/-- C6 (amended): in the spec's end-to-end scenario the displacement at
`elapsed = 0` is `[0, 0.2, 0, -0.2, 0]` (and a frame at `elapsed = 0`
stores exactly that array); at `elapsed = 2.5` index 1 evaluates to `0`,
differing from the stored `0.2` — but every index `0..4` changes, so the
dirty-range list is the single range `(0, 4)` (which includes length index
1), forwarded as the vertex range `(0, 23)` (that is `[0, 24)`), not
`[0, 12)` as the original claim stated. -/
theorem C6_scenario :
    (displacement scenario 0 0 = 0 ∧ displacement scenario 1 0 = 0.2 ∧
     displacement scenario 2 0 = 0 ∧ displacement scenario 3 0 = -0.2 ∧
     displacement scenario 4 0 = 0) ∧
    (scenario.update 0 (init_displacement scenario) []).disp = scenarioPrev ∧
    displacement scenario 1 2.5 = 0 ∧
    displacement scenario 1 2.5 ≠ scenarioPrev.getD 1 0 ∧
    (detect 4 (fun n => displacement scenario n 2.5) scenarioPrev).1 =
      [(0, 4)] ∧
    (∃ r ∈ (detect 4 (fun n => displacement scenario n 2.5) scenarioPrev).1,
      r.1 ≤ 1 ∧ 1 ≤ r.2) ∧
    (scenario.update 2.5 scenarioPrev []).ranges = [(0, 23)] := by
  refine ⟨⟨scenario_d00, scenario_d10, scenario_d20, scenario_d30,
    scenario_d40⟩, scenario_disp0, scenario_d125, ?_, scenario_detect_25,
    ?_, scenario_ranges_25⟩
  · rw [scenario_d125]
    show (0 : ℝ) ≠ 0.2
    norm_num
  · rw [scenario_detect_25]
    exact ⟨(0, 4), by simp, by decide, by decide⟩

/-- C6 counterexample: the scenario frame at `elapsed = 2.5` forwards the
vertex range `(0, 23)` (covering `[0, 24)`), not the `[0, 12)` (pair
`(0, 11)`) stated by the claim. -/
theorem C6_counterexample :
    (scenario.update 2.5 scenarioPrev []).ranges = [(0, 23)] ∧
    (scenario.update 2.5 scenarioPrev []).ranges ≠ [(0, 11)] := by
  refine ⟨scenario_ranges_25, ?_⟩
  rw [scenario_ranges_25]
  decide

/-- C7 (amended): at grid-build time the x and y coordinates are fixed by
linear interpolation, but the z components of all four attribute slots are
initialized to the constant base height `0.0` that `create_mesh` passes to
`make_grid` (not via the displacement function), and the stored
previous-displacement array starts as `nlength + 1` zeros. -/
theorem C7_initial_mesh (m : WaveMesh) (v : ℕ) (hw : 1 ≤ m.nwidth)
    (hv : v < m.nlength * (m.nwidth * 6)) :
    (∃ j, j ≤ m.nwidth ∧ ((create_mesh_verts m).getD v []).take 3 =
      [((v / (6 * m.nwidth) + v % 2 : ℕ) : ℝ) * m.length / (m.nlength : ℝ),
       (j : ℝ) * m.width / (m.nwidth : ℝ), 0]) ∧
    (∀ s, s < 4 → ((create_mesh_verts m).getD v []).getD (s * 3 + 2) 0 = 0) ∧
    init_displacement m = List.replicate (m.nlength + 1) 0 := by
  have h := make_grid_own m.nlength m.nwidth m.length m.width 0 v hv hw
  exact ⟨h.1, h.2, rfl⟩

/-- C7 counterexample: scenario vertex 1 has own length index 1 and initial
z component `0`, while `displacement(1, 0) = 0.2 ≠ 0` — the initial z is not
produced by the displacement function. -/
theorem C7_counterexample :
    ((create_mesh_verts scenario).getD 1 []).getD 2 0 = 0 ∧
    displacement scenario (vertex_length_index scenario.nwidth 1) 0 = 0.2 ∧
    (0 : ℝ) ≠ 0.2 := by
  refine ⟨?_, ?_, by norm_num⟩
  · exact (make_grid_own scenario.nlength scenario.nwidth scenario.length
      scenario.width 0 1 (by decide) (by decide)).2 0 (by decide)
  · show displacement scenario 1 0 = 0.2
    exact scenario_d10

/-- C7 witness: the amended statement instantiated at scenario vertex 1,
slot 0. -/
theorem C7_witness :
    ((create_mesh_verts scenario).getD 1 []).getD (0 * 3 + 2) 0 = 0 :=
  (C7_initial_mesh scenario 1 (by decide) (by decide)).2.1 0 (by decide)

/-- C8: an `update` call rewrites only the z components (flat positions
2, 5, 8, 11 of the 4 three-float slots) of vertices inside the converted
dirty spans: any component of a vertex outside every span, and any non-z
component of any vertex, is left unchanged. -/
theorem C8_z_only (nl nw : ℕ) (f : ℕ → ℝ) (d : List ℝ)
    (vs : List (List ℝ)) (v j : ℕ)
    (h : (∀ r ∈ (detect nl f d).1, v < vstart nw r ∨ vstop nl nw r ≤ v) ∨
      (j ≠ 2 ∧ j ≠ 5 ∧ j ≠ 8 ∧ j ≠ 11)) :
    ((update nl nw f d vs).verts.getD v []).getD j 0 =
      (vs.getD v []).getD j 0 := by
  rw [update_verts_eq]
  rcases h with h | ⟨h2, h5, h8, h11⟩
  · rw [foldl_processRange_verts_outside nl nw (detect nl f d).2 v
      (detect nl f d).1 vs [] h]
  · rw [foldl_processRange_verts_j nl nw (detect nl f d).2 j 0 h2 h5 h8 h11]

/-- C8 witness: the x component (flat position 0) of vertex 0 is preserved
by an update. -/
theorem C8_witness :
    ((update 4 1 (fun _ => (0 : ℝ)) zeros5 []).verts.getD 0 []).getD 0 0 =
      ((([] : List (List ℝ)).getD 0 []).getD 0 0) :=
  C8_z_only 4 1 (fun _ => (0 : ℝ)) zeros5 [] 0 0
    (Or.inr ⟨by decide, by decide, by decide, by decide⟩)

/-- C10: for `nlength ≥ 1` and `nwidth ≥ 1`, every forwarded vertex range is
the conversion of a detected range with `vstart < vend` (so the forwarded
pair `(vstart, vend - 1)` is well formed and non-empty), the forwarded
ranges are pairwise disjoint and increasing, and inside every span each
written vertex index is below `nlength·nwidth·6` while all four
displacement-array indices read stay at most `nlength`. -/
theorem C10_safety (nl nw : ℕ) (f : ℕ → ℝ) (d : List ℝ)
    (vs : List (List ℝ)) (hnl : 1 ≤ nl) (hnw : 1 ≤ nw) :
    (update nl nw f d vs).ranges =
      (detect nl f d).1.map (fun r => (vstart nw r, vstop nl nw r - 1)) ∧
    (∀ r ∈ (detect nl f d).1, vstart nw r < vstop nl nw r) ∧
    List.Chain' (fun a c => a.2 < c.1) (update nl nw f d vs).ranges ∧
    (∀ r ∈ (detect nl f d).1, ∀ v, vstart nw r ≤ v → v < vstop nl nw r →
      v < nl * nw * 6 ∧ vertex_length_index nw v ≤ nl ∧
      vertex_length_index nw (3 * (v / 3)) ≤ nl ∧
      vertex_length_index nw (3 * (v / 3) + 1) ≤ nl ∧
      vertex_length_index nw (3 * (v / 3) + 2) ≤ nl) := by
  obtain ⟨hc, hb, hs, he, hv⟩ := detect_inv nl f d
  have hB : ∀ r ∈ (detect nl f d).1, vstart nw r < vstop nl nw r := by
    intro r hr
    exact vstart_lt_vstop nl nw r hnw hnl (hb r hr).1
      (by have := (hb r hr).2; omega) (hs r hr)
  refine ⟨update_ranges_eq nl nw f d vs, hB, ?_, ?_⟩
  · rw [update_ranges_eq, List.chain'_map]
    refine List.Chain'.imp ?_ hc
    intro a c hac
    show vstop nl nw a - 1 < vstart nw c
    have h1 := vstop_le_vstart nl nw a c hac
    have h2 := vstop_pos nl nw a hnl hnw
    omega
  · intro r hr v hv1 hv2
    have hr2 : r.2 ≤ nl := by have := (hb r hr).2; omega
    have hvlt : v < nl * nw * 6 := lt_of_lt_of_le hv2 (vstop_le nl nw r hr2)
    have ht := triangle_indices_lt_vstop nl nw r v hv2
    have hstop := vstop_le nl nw r hr2
    refine ⟨hvlt, vertex_length_index_le nl nw v hnw hvlt, ?_, ?_, ?_⟩
    · exact vertex_length_index_le nl nw _ hnw (by omega)
    · exact vertex_length_index_le nl nw _ hnw (by omega)
    · exact vertex_length_index_le nl nw _ hnw (by omega)

/-- C10 witness: the forwarded-range equation on a concrete configuration. -/
theorem C10_witness :
    (update 4 1 (fun _ => (0 : ℝ)) zeros5 []).ranges =
      (detect 4 (fun _ => (0 : ℝ)) zeros5).1.map
        (fun r => (vstart 1 r, vstop 4 1 r - 1)) :=
  (C10_safety 4 1 (fun _ => (0 : ℝ)) zeros5 [] (by decide) (by decide)).1

end SceneBuffer
